import Mathlib

/-!
Shallow embedding of `blockchain.py` (ZakatChain multi-node blockchain).

Modelling conventions:
* Python `float` amounts are modelled as exact rationals `ℚ` (the spec's
  "non-negative rational" idealization); the literal `0.025` is `25/1000`
  and `10.0`, `200.0` are the corresponding rationals.
* SHA-256 is modelled as an abstract function `H : HashInput → String`
  applied to exactly the fields the source serializes into the hashed
  block string (`roll_number`, `index`, `transactions`, `previous_hash`,
  `timestamp`, `nonce`).  Every theorem about hashing is universally
  quantified over `H`; witnesses instantiate `H` with a concrete function.
* Timestamps (`datetime.now()`) are oracle inputs: every operation that
  the source timestamps takes the timestamp string as an argument.
* The unbounded proof-of-work `while` loop of `Block.mine_block` is
  modelled as a fuel-bounded search returning `Option`; `none` stands for
  the call not returning within the given fuel, so every reachable state
  corresponds to a completed sequence of source-level calls.
* The Python `dict` of balances is an insertion-ordered association list
  with the usual get / contains / assign operations; the `nodes` registry
  is modelled by its key set (a list of roll numbers) since no claim reads
  the per-node statistics fields.
-/

/-- One transaction record (`Transaction.__init__` in the source). -/
structure Transaction where
  sender : String
  receiver : String
  amount : ℚ
  zakat_amount : ℚ
  transaction_type : String
  timestamp : String
  deriving DecidableEq

/-- The data `Block.calculate_hash` feeds into SHA-256: the source hashes
`f"{roll_number}:{index}:{transactions_str}:{previous_hash}:{timestamp}:{nonce}"`. -/
structure HashInput where
  roll_number : String
  index : ℕ
  transactions : List Transaction
  previous_hash : String
  timestamp : String
  nonce : ℕ
  deriving DecidableEq

/-- One block (`Block.__init__` in the source). -/
structure Block where
  index : ℕ
  transactions : List Transaction
  previous_hash : String
  roll_number : String
  timestamp : String
  nonce : ℕ
  hash : String
  deriving DecidableEq

def Block.hashInput (b : Block) : HashInput :=
  ⟨b.roll_number, b.index, b.transactions, b.previous_hash, b.timestamp, b.nonce⟩

/-- `Block.calculate_hash`: SHA-256 (abstracted as `H`) of the block fields. -/
def Block.calculate_hash (H : HashInput → String) (b : Block) : String :=
  H b.hashInput

/-- `Block.__init__`: all fields set, `nonce = 0`, `hash = calculate_hash()`. -/
def Block.init (H : HashInput → String) (index : ℕ) (transactions : List Transaction)
    (previous_hash roll_number timestamp : String) : Block :=
  let b : Block := ⟨index, transactions, previous_hash, roll_number, timestamp, 0, ""⟩
  { b with hash := b.calculate_hash H }

/-- One iteration of the mining loop body: `nonce += 1; hash = calculate_hash()`. -/
def Block.withNonce (H : HashInput → String) (b : Block) (n : ℕ) : Block :=
  let b' : Block := { b with nonce := n }
  { b' with hash := b'.calculate_hash H }

/-- The proof-of-work target `"0" * difficulty`. -/
def mineTarget (difficulty : ℕ) : String :=
  String.mk (List.replicate difficulty '0')

/-- `Block.mine_block`'s `while self.hash[:difficulty] != target` loop,
fuel-bounded; `none` models the loop not terminating within `fuel` steps. -/
def Block.mineAux (H : HashInput → String) (difficulty : ℕ) : ℕ → Block → Option Block
  | 0, b =>
    if b.hash.take difficulty = mineTarget difficulty then some b else none
  | fuel + 1, b =>
    if b.hash.take difficulty = mineTarget difficulty then some b
    else Block.mineAux H difficulty fuel (b.withNonce H (b.nonce + 1))

/-- `Block.mine_block(difficulty)` (the source always calls it with the
default `difficulty = 2`). -/
def Block.mine_block (H : HashInput → String) (difficulty fuel : ℕ) (b : Block) :
    Option Block :=
  Block.mineAux H difficulty fuel b

/-- Python `dict.get(a, 0.0)` over an insertion-ordered association list. -/
def getBal : List (String × ℚ) → String → ℚ
  | [], _ => 0
  | p :: rest, a => if p.1 = a then p.2 else getBal rest a

/-- Python `a in dict`. -/
def hasBal : List (String × ℚ) → String → Bool
  | [], _ => false
  | p :: rest, a => if p.1 = a then true else hasBal rest a

/-- Python `dict[a] = v` (update in place, or append a new key). -/
def setBal : List (String × ℚ) → String → ℚ → List (String × ℚ)
  | [], a, v => [(a, v)]
  | p :: rest, a, v => if p.1 = a then (a, v) :: rest else p :: setBal rest a v

/-- Sum of all values of the balance mapping (`sum(balances.values())`). -/
def sumBal (bs : List (String × ℚ)) : ℚ :=
  (bs.map Prod.snd).sum

/-- The ledger state (`ZakatBlockchain` instance attributes).  `zakat_rate`
and `mining_reward` are set once in `__init__` and never mutated, so they
are global constants of the model; the `nodes` dict is modelled by its key
set because no claim reads the per-node statistics. -/
structure Ledger where
  creator_roll_number : String
  chain : List Block
  pending_transactions : List Transaction
  balances : List (String × ℚ)
  nodes : List String
  deriving DecidableEq

/-- `self.zakat_rate = 0.025`. -/
def zakat_rate : ℚ := 25 / 1000

/-- `self.mining_reward = 10.0`. -/
def mining_reward : ℚ := 10

/-- `ZakatBlockchain.get_balance`. -/
def ZakatBlockchain.get_balance (st : Ledger) (address : String) : ℚ :=
  getBal st.balances address

/-- `ZakatBlockchain.calculate_zakat`. -/
def ZakatBlockchain.calculate_zakat (balance : ℚ) : ℚ :=
  balance * zakat_rate

/-- `ZakatBlockchain.add_node` (returns the Python `bool` and the new state;
per-node statistics are dropped, only the key set of `self.nodes` is kept). -/
def ZakatBlockchain.add_node (st : Ledger) (roll_number : String)
    (initial_balance : ℚ) : Bool × Ledger :=
  if st.nodes.contains roll_number then (false, st)
  else
    let st1 : Ledger := { st with nodes := st.nodes ++ [roll_number] }
    let st2 : Ledger :=
      if hasBal st1.balances roll_number then st1
      else { st1 with balances := setBal st1.balances roll_number initial_balance }
    (true, st2)

/-- `ZakatBlockchain.validate_transaction`. -/
def ZakatBlockchain.validate_transaction (st : Ledger) (t : Transaction) : Bool :=
  if ZakatBlockchain.get_balance st t.sender < t.amount + t.zakat_amount then false
  else true

/-- `ZakatBlockchain.add_transaction`. -/
def ZakatBlockchain.add_transaction (st : Ledger) (t : Transaction) : Bool × Ledger :=
  if ZakatBlockchain.validate_transaction st t then
    (true, { st with pending_transactions := st.pending_transactions ++ [t] })
  else (false, st)

/-- The `Transaction(...)` constructed inside `create_transfer_transaction`. -/
def ZakatBlockchain.transferTx (st : Ledger) (from_address to_address : String)
    (amount : ℚ) (ts : String) : Transaction :=
  { sender := from_address, receiver := to_address, amount := amount,
    zakat_amount := ZakatBlockchain.calculate_zakat
      (ZakatBlockchain.get_balance st from_address),
    transaction_type := "transfer", timestamp := ts }

/-- `ZakatBlockchain.create_transfer_transaction`. -/
def ZakatBlockchain.create_transfer_transaction (st : Ledger)
    (from_address to_address : String) (amount : ℚ) (ts : String) : Bool × Ledger :=
  ZakatBlockchain.add_transaction st
    (ZakatBlockchain.transferTx st from_address to_address amount ts)

/-- The `Transaction(...)` constructed inside `create_zakat_transaction`. -/
def ZakatBlockchain.zakatTx (st : Ledger) (from_address to_address ts : String) :
    Transaction :=
  { sender := from_address, receiver := to_address, amount := 0,
    zakat_amount := ZakatBlockchain.calculate_zakat
      (ZakatBlockchain.get_balance st from_address),
    transaction_type := "zakat", timestamp := ts }

/-- `ZakatBlockchain.create_zakat_transaction`. -/
def ZakatBlockchain.create_zakat_transaction (st : Ledger)
    (from_address to_address ts : String) : Bool × Ledger :=
  if 0 < ZakatBlockchain.calculate_zakat (ZakatBlockchain.get_balance st from_address) then
    ZakatBlockchain.add_transaction st
      (ZakatBlockchain.zakatTx st from_address to_address ts)
  else (false, st)

/-- The loop body of `ZakatBlockchain.update_balances` for one transaction
(the `update_node_stats` calls touch only the dropped statistics fields). -/
def applyTransaction (bs : List (String × ℚ)) (t : Transaction) :
    List (String × ℚ) :=
  let bs1 :=
    if t.sender ≠ "System" ∧ t.sender ≠ "Genesis" then
      let bs0 := if hasBal bs t.sender then bs else setBal bs t.sender 0
      setBal bs0 t.sender (getBal bs0 t.sender - (t.amount + t.zakat_amount))
    else bs
  let bs2 := if hasBal bs1 t.receiver then bs1 else setBal bs1 t.receiver 0
  setBal bs2 t.receiver (getBal bs2 t.receiver + t.amount)

/-- `ZakatBlockchain.update_balances`. -/
def ZakatBlockchain.update_balances (st : Ledger) (b : Block) : Ledger :=
  { st with balances := b.transactions.foldl applyTransaction st.balances }

/-- Placeholder block for `chain[-1]` on an empty chain; every constructed
ledger has the genesis block, so it is never actually read. -/
def dummyBlock : Block := ⟨0, [], "", "", "", 0, ""⟩

/-- `ZakatBlockchain.get_latest_block` (`self.chain[-1]`). -/
def ZakatBlockchain.get_latest_block (st : Ledger) : Block :=
  st.chain.getLastD dummyBlock

/-- The mining-reward `Transaction(...)` built in `mine_pending_transactions`. -/
def ZakatBlockchain.rewardTx (mining_address ts : String) : Transaction :=
  { sender := "System", receiver := mining_address, amount := mining_reward,
    zakat_amount := 0, transaction_type := "mining_reward", timestamp := ts }

/-- `ZakatBlockchain.mine_pending_transactions` (seal). -/
def ZakatBlockchain.mine_pending_transactions (H : HashInput → String) (st : Ledger)
    (mining_address ts : String) (fuel : ℕ) : Option Ledger :=
  match Block.mine_block H 2 fuel
      (Block.init H st.chain.length
        (st.pending_transactions ++ [ZakatBlockchain.rewardTx mining_address ts])
        (ZakatBlockchain.get_latest_block st).hash st.creator_roll_number ts) with
  | none => none
  | some b =>
    some { ZakatBlockchain.update_balances { st with chain := st.chain ++ [b] } b
            with pending_transactions := [] }

/-- The genesis `Transaction(...)`: note the amount is the literal `200.0`. -/
def ZakatBlockchain.genesisTx (creator ts : String) : Transaction :=
  { sender := "Genesis", receiver := creator, amount := 200, zakat_amount := 0,
    transaction_type := "genesis", timestamp := ts }

/-- `ZakatBlockchain.create_genesis_block`. -/
def ZakatBlockchain.create_genesis_block (H : HashInput → String) (st : Ledger)
    (ts : String) : Ledger :=
  { st with chain := st.chain ++
      [Block.init H 0 [ZakatBlockchain.genesisTx st.creator_roll_number ts] "0"
        st.creator_roll_number ts] }

/-- `ZakatBlockchain.__init__`. -/
def ZakatBlockchain.init (H : HashInput → String) (creator_roll_number : String)
    (initial_balance : ℚ) (ts : String) : Ledger :=
  let st0 : Ledger :=
    { creator_roll_number := creator_roll_number, chain := [],
      pending_transactions := [],
      balances := [(creator_roll_number, initial_balance)], nodes := [] }
  let st1 := (ZakatBlockchain.add_node st0 creator_roll_number initial_balance).2
  ZakatBlockchain.create_genesis_block H st1 ts

/-- The body of `validate_chain`'s loop: `prev` is `chain[i-1]`, the list
argument is `chain[i:]`; both early-`return False` checks are modelled. -/
def validChainAux (H : HashInput → String) : Block → List Block → Bool
  | _, [] => true
  | prev, b :: rest =>
    if b.hash = b.calculate_hash H then
      if b.previous_hash = prev.hash then validChainAux H b rest
      else false
    else false

/-- `ZakatBlockchain.validate_chain`. -/
def ZakatBlockchain.validate_chain (H : HashInput → String) (st : Ledger) : Bool :=
  match st.chain with
  | [] => true
  | g :: rest => validChainAux H g rest

/-- One public mutating operation of the ledger. -/
inductive Op where
  | addNode (roll_number : String) (initial_balance : ℚ)
  | transfer (from_address to_address : String) (amount : ℚ) (ts : String)
  | zakat (from_address to_address ts : String)
  | seal (mining_address ts : String) (fuel : ℕ)
  deriving DecidableEq

/-- Run one public operation (`none` = the seal call did not return). -/
def runOp (H : HashInput → String) (st : Ledger) : Op → Option Ledger
  | Op.addNode r b => some (ZakatBlockchain.add_node st r b).2
  | Op.transfer f t a ts => some (ZakatBlockchain.create_transfer_transaction st f t a ts).2
  | Op.zakat f t ts => some (ZakatBlockchain.create_zakat_transaction st f t ts).2
  | Op.seal m ts fuel => ZakatBlockchain.mine_pending_transactions H st m ts fuel

/-- Run a sequence of public operations. -/
def runOps (H : HashInput → String) : Ledger → List Op → Option Ledger
  | st, [] => some st
  | st, op :: ops =>
    match runOp H st op with
    | none => none
    | some st' => runOps H st' ops

/-- The trace consists only of registrations and seals. -/
def regSealOnly : List Op → Bool
  | [] => true
  | Op.addNode _ _ :: ops => regSealOnly ops
  | Op.seal _ _ _ :: ops => regSealOnly ops
  | Op.transfer _ _ _ _ :: _ => false
  | Op.zakat _ _ _ :: _ => false

/-- Sum of the starting balances passed to the registrations of a trace. -/
def regTotal : List Op → ℚ
  | [] => 0
  | Op.addNode _ b :: ops => b + regTotal ops
  | _ :: ops => regTotal ops

/-- Number of seal operations in a trace. -/
def sealCount : List Op → ℕ
  | [] => 0
  | Op.seal _ _ _ :: ops => sealCount ops + 1
  | _ :: ops => sealCount ops

/-- Every registration in the trace is of a brand-new account: not yet in
the node registry and not yet in the balance mapping at registration time. -/
def freshRegs (H : HashInput → String) : Ledger → List Op → Bool
  | _, [] => true
  | st, Op.addNode r b :: ops =>
    !(st.nodes.contains r) && !(hasBal st.balances r)
      && freshRegs H (ZakatBlockchain.add_node st r b).2 ops
  | st, Op.transfer f t a ts :: ops =>
    freshRegs H (ZakatBlockchain.create_transfer_transaction st f t a ts).2 ops
  | st, Op.zakat f t ts :: ops =>
    freshRegs H (ZakatBlockchain.create_zakat_transaction st f t ts).2 ops
  | st, Op.seal m ts fuel :: ops =>
    match ZakatBlockchain.mine_pending_transactions H st m ts fuel with
    | none => true
    | some st' => freshRegs H st' ops

/-- Concrete hash oracle used by witnesses and counterexamples: every block
hashes to `"00"`, so mining succeeds immediately at the stored nonce. -/
def cH : HashInput → String := fun _ => "00"

/-- Placeholder ledger for extracting the value of an `Option Ledger`. -/
def dummyLedger : Ledger := ⟨"", [], [], [], []⟩

/-- Concrete test ledger: `ZakatBlockchain("C1", 200.0)` under the oracle `cH`. -/
def ledger0 : Ledger := ZakatBlockchain.init cH "C1" 200 ""

/-- Concrete non-genesis block used in the chain-validation fixtures. -/
def c9tail : Block := ⟨1, [], "G", "C1", "", 0, "00"⟩

/-- Concrete genesis block with one entry and stored hash `"G"`. -/
def c9genesisA : Block := ⟨0, [ZakatBlockchain.genesisTx "C1" ""], "0", "C1", "", 0, "G"⟩

/-- The same genesis block with its entry list altered but the stored hash kept. -/
def c9genesisB : Block := ⟨0, [], "0", "C1", "", 0, "G"⟩

/-- Fixture ledger holding the unaltered genesis block. -/
def c9ledgerA : Ledger := { dummyLedger with chain := [c9genesisA, c9tail] }

/-- Fixture ledger holding the altered genesis block. -/
def c9ledgerB : Ledger := { dummyLedger with chain := [c9genesisB, c9tail] }

/-! ## Helper lemmas -/

theorem getBal_of_not_has (bs : List (String × ℚ)) (a : String)
    (h : hasBal bs a = false) : getBal bs a = 0 := by
  induction bs with
  | nil => rfl
  | cons p rest ih =>
    unfold hasBal at h
    unfold getBal
    split at h
    · exact absurd h (by simp)
    · rename_i hpa
      rw [if_neg hpa]
      exact ih h

theorem sumBal_cons (p : String × ℚ) (bs : List (String × ℚ)) :
    sumBal (p :: bs) = p.2 + sumBal bs := by
  simp [sumBal]

theorem sumBal_setBal (bs : List (String × ℚ)) (a : String) (v : ℚ) :
    sumBal (setBal bs a v) = sumBal bs - getBal bs a + v := by
  induction bs with
  | nil => simp [setBal, getBal, sumBal]
  | cons p rest ih =>
    unfold setBal getBal
    by_cases hpa : p.1 = a
    · rw [if_pos hpa, if_pos hpa, sumBal_cons, sumBal_cons]
      ring
    · rw [if_neg hpa, if_neg hpa, sumBal_cons, sumBal_cons, ih]
      ring

theorem sumBal_ensure (bs : List (String × ℚ)) (a : String) :
    sumBal (if hasBal bs a then bs else setBal bs a 0) = sumBal bs := by
  split
  · rfl
  · rename_i h
    rw [sumBal_setBal, getBal_of_not_has bs a (by simpa using h)]
    ring

theorem sumBal_applyTransaction (bs : List (String × ℚ)) (t : Transaction) :
    sumBal (applyTransaction bs t) =
      sumBal bs + t.amount -
        (if t.sender ≠ "System" ∧ t.sender ≠ "Genesis"
          then t.amount + t.zakat_amount else 0) := by
  unfold applyTransaction
  split
  · rw [sumBal_setBal, sumBal_ensure, sumBal_setBal, sumBal_ensure]
    ring
  · rw [sumBal_setBal, sumBal_ensure]
    ring

theorem Block.mineAux_fields (H : HashInput → String) (d : ℕ) :
    ∀ (fuel : ℕ) (b b' : Block), Block.mineAux H d fuel b = some b' →
      b'.index = b.index ∧ b'.transactions = b.transactions ∧
      b'.previous_hash = b.previous_hash ∧ b'.roll_number = b.roll_number ∧
      b'.timestamp = b.timestamp := by
  intro fuel
  induction fuel with
  | zero =>
    intro b b' h
    unfold Block.mineAux at h
    split at h
    · cases h
      exact ⟨rfl, rfl, rfl, rfl, rfl⟩
    · cases h
  | succ fuel ih =>
    intro b b' h
    unfold Block.mineAux at h
    split at h
    · cases h
      exact ⟨rfl, rfl, rfl, rfl, rfl⟩
    · have hw := ih (b.withNonce H (b.nonce + 1)) b' h
      exact ⟨hw.1, hw.2.1, hw.2.2.1, hw.2.2.2.1, hw.2.2.2.2⟩

theorem Block.mineAux_take (H : HashInput → String) (d : ℕ) :
    ∀ (fuel : ℕ) (b b' : Block), Block.mineAux H d fuel b = some b' →
      b'.hash.take d = mineTarget d := by
  intro fuel
  induction fuel with
  | zero =>
    intro b b' h
    unfold Block.mineAux at h
    split at h
    · cases h
      assumption
    · cases h
  | succ fuel ih =>
    intro b b' h
    unfold Block.mineAux at h
    split at h
    · cases h
      assumption
    · exact ih _ _ h

theorem Block.withNonce_hash (H : HashInput → String) (b : Block) (n : ℕ) :
    (Block.withNonce H b n).hash = (Block.withNonce H b n).calculate_hash H := rfl

theorem Block.init_hash (H : HashInput → String) (i : ℕ) (txs : List Transaction)
    (p r ts : String) :
    (Block.init H i txs p r ts).hash = (Block.init H i txs p r ts).calculate_hash H := rfl

theorem Block.mineAux_hash (H : HashInput → String) (d : ℕ) :
    ∀ (fuel : ℕ) (b b' : Block), b.hash = b.calculate_hash H →
      Block.mineAux H d fuel b = some b' → b'.hash = b'.calculate_hash H := by
  intro fuel
  induction fuel with
  | zero =>
    intro b b' hb h
    unfold Block.mineAux at h
    split at h
    · cases h
      exact hb
    · cases h
  | succ fuel ih =>
    intro b b' hb h
    unfold Block.mineAux at h
    split at h
    · cases h
      exact hb
    · exact ih _ _ (Block.withNonce_hash H b (b.nonce + 1)) h

/-! ## Claim theorems -/

/-- C2: for every call to `create_transfer_transaction` the constructed
transaction's `zakat_amount` is exactly `0.025` times the sender's current
balance (independent of the transfer amount), and every successful call to
`create_zakat_transaction` enqueues a transaction whose `zakat_amount` is
exactly `0.025` times the sender's current balance. -/
theorem C2_levy_rule (st : Ledger) (from_address to_address : String)
    (amount : ℚ) (ts ts' : String) :
    (ZakatBlockchain.transferTx st from_address to_address amount ts).zakat_amount
      = zakat_rate * ZakatBlockchain.get_balance st from_address
    ∧ ((ZakatBlockchain.create_zakat_transaction st from_address to_address ts').1 = true →
        (ZakatBlockchain.create_zakat_transaction st from_address to_address ts').2.pending_transactions
          = st.pending_transactions ++ [ZakatBlockchain.zakatTx st from_address to_address ts']
        ∧ (ZakatBlockchain.zakatTx st from_address to_address ts').zakat_amount
          = zakat_rate * ZakatBlockchain.get_balance st from_address) := by
  constructor
  · show ZakatBlockchain.calculate_zakat (ZakatBlockchain.get_balance st from_address)
      = zakat_rate * ZakatBlockchain.get_balance st from_address
    unfold ZakatBlockchain.calculate_zakat
    ring
  · intro h
    refine ⟨?_, by unfold ZakatBlockchain.zakatTx ZakatBlockchain.calculate_zakat; ring⟩
    unfold ZakatBlockchain.create_zakat_transaction at h ⊢
    split at h
    · rename_i hpos
      rw [if_pos hpos]
      unfold ZakatBlockchain.add_transaction at h ⊢
      split at h
      · rename_i hval
        rw [if_pos hval]
      · exact absurd h (by simp)
    · exact absurd h (by simp)

/-- C3 counterexample: `validate_transaction` does not exempt the sender
`"System"`: on a fresh ledger a `System`-sent transaction of amount 10 is
rejected (System's balance defaults to 0), contradicting the claim that
validate accepts Genesis/System entries regardless of balance. -/
theorem C3_counterexample :
    ZakatBlockchain.validate_transaction ledger0
      ⟨"System", "C1", 10, 0, "mining_reward", ""⟩ = false := by
  unfold ZakatBlockchain.validate_transaction
  rw [if_pos]
  show ZakatBlockchain.get_balance ledger0 "System" < 10 + 0
  have h0 : ZakatBlockchain.get_balance ledger0 "System" = 0 := by
    simp [ledger0, ZakatBlockchain.get_balance, ZakatBlockchain.init,
      ZakatBlockchain.add_node, ZakatBlockchain.create_genesis_block,
      getBal, hasBal, setBal]
  rw [h0]
  norm_num

/-- C3 amended: `validate_transaction` succeeds if and only if the sender's
current balance is at least `amount + zakat_amount`, with no exemption for
the senders `"Genesis"` or `"System"` (those entries bypass validation in
the source by being appended to blocks directly). -/
theorem C3_amended (st : Ledger) (t : Transaction) :
    ZakatBlockchain.validate_transaction st t = true ↔
      t.amount + t.zakat_amount ≤ ZakatBlockchain.get_balance st t.sender := by
  unfold ZakatBlockchain.validate_transaction
  by_cases h : ZakatBlockchain.get_balance st t.sender < t.amount + t.zakat_amount
  · rw [if_pos h]
    simp only [Bool.false_eq_true, false_iff]
    exact not_le.mpr h
  · rw [if_neg h]
    simp only [true_iff]
    exact le_of_not_lt h

/-- C5: when `amount` plus the levy on the sender's balance exceeds the
sender's balance (and the sender is neither "Genesis" nor "System"),
`create_transfer_transaction` returns `false` and leaves the entire ledger
state (pending set, balances, chain) unchanged. -/
theorem C5_insufficient_funds (st : Ledger) (A B : String) (amount : ℚ) (ts : String)
    (h : ZakatBlockchain.get_balance st A <
      amount + ZakatBlockchain.calculate_zakat (ZakatBlockchain.get_balance st A))
    (hA1 : A ≠ "Genesis") (hA2 : A ≠ "System") :
    ZakatBlockchain.create_transfer_transaction st A B amount ts = (false, st) := by
  have hv : ZakatBlockchain.validate_transaction st
      (ZakatBlockchain.transferTx st A B amount ts) = false := by
    show (if ZakatBlockchain.get_balance st A <
        amount + ZakatBlockchain.calculate_zakat (ZakatBlockchain.get_balance st A)
      then false else true) = false
    exact if_pos h
  unfold ZakatBlockchain.create_transfer_transaction ZakatBlockchain.add_transaction
  rw [hv]
  simp

/-- C5 witness: on a fresh ledger, transferring 300 from "C1" (balance 200,
levy 5) is rejected and the state is unchanged. -/
theorem C5_witness :
    ZakatBlockchain.create_transfer_transaction ledger0 "C1" "B" 300 "" = (false, ledger0) := by
  refine C5_insufficient_funds ledger0 "C1" "B" 300 "" ?_ (by decide) (by decide)
  have h0 : ZakatBlockchain.get_balance ledger0 "C1" = 200 := rfl
  rw [h0]
  unfold ZakatBlockchain.calculate_zakat zakat_rate
  norm_num

/-- C6 amended: ledger construction synthesizes exactly one genesis block,
with previous hash `"0"`, holding a single `genesis` entry whose receiver is
the creator and whose amount is the constant `200.0` (not the creator's
starting balance), and leaves the pending set empty. -/
theorem C6_genesis_amended (H : HashInput → String) (creator : String)
    (initial_balance : ℚ) (ts : String) :
    (ZakatBlockchain.init H creator initial_balance ts).chain
      = [Block.init H 0 [ZakatBlockchain.genesisTx creator ts] "0" creator ts]
    ∧ (ZakatBlockchain.init H creator initial_balance ts).pending_transactions = []
    ∧ ZakatBlockchain.genesisTx creator ts
      = { sender := "Genesis", receiver := creator, amount := 200, zakat_amount := 0,
          transaction_type := "genesis", timestamp := ts } := by
  refine ⟨?_, ?_, rfl⟩
  · show (ZakatBlockchain.create_genesis_block H
      ((ZakatBlockchain.add_node _ creator initial_balance).2) ts).chain = _
    unfold ZakatBlockchain.create_genesis_block ZakatBlockchain.add_node
    simp [apply_ite Ledger.chain, apply_ite Ledger.creator_roll_number]
  · show (ZakatBlockchain.create_genesis_block H
      ((ZakatBlockchain.add_node _ creator initial_balance).2) ts).pending_transactions = _
    unfold ZakatBlockchain.create_genesis_block ZakatBlockchain.add_node
    simp [apply_ite Ledger.pending_transactions]

/-- C6 counterexample: constructing a ledger with starting balance 100 still
produces a genesis entry of amount 200, so the genesis amount does not equal
the creator's starting balance. -/
theorem C6_counterexample :
    ((ZakatBlockchain.init cH "A" 100 "").chain.map
        (fun b => b.transactions.map Transaction.amount)) = [[200]]
    ∧ (200 : ℚ) ≠ 100 := by
  constructor
  · rfl
  · norm_num

/-- C9: `validate_chain` never inspects the genesis block's contents: two
ledgers whose chains agree on every block at index ≥ 1 and on the genesis
block's stored hash field get the same validation result. -/
theorem C9_genesis_opaque (H : HashInput → String) (st1 st2 : Ledger)
    (g1 g2 : Block) (rest : List Block)
    (h1 : st1.chain = g1 :: rest) (h2 : st2.chain = g2 :: rest)
    (hg : g1.hash = g2.hash) :
    ZakatBlockchain.validate_chain H st1 = ZakatBlockchain.validate_chain H st2 := by
  unfold ZakatBlockchain.validate_chain
  rw [h1, h2]
  cases rest with
  | nil => rfl
  | cons b rest' =>
    show validChainAux H g1 (b :: rest') = validChainAux H g2 (b :: rest')
    unfold validChainAux
    rw [hg]

/-- C9 witness: altering the genesis block's entry list while keeping its
stored hash leaves the validation result unchanged (and true) on a concrete
two-block chain. -/
theorem C9_witness :
    ZakatBlockchain.validate_chain cH c9ledgerA = ZakatBlockchain.validate_chain cH c9ledgerB
    ∧ ZakatBlockchain.validate_chain cH c9ledgerA = true := by
  constructor
  · exact C9_genesis_opaque cH c9ledgerA c9ledgerB c9genesisA c9genesisB [c9tail] rfl rfl rfl
  · decide

/-- C2 witness: on a fresh ledger with balance 200, the transfer levy is 5
and a successful zakat call enqueues the levy entry. -/
theorem C2_witness :
    (ZakatBlockchain.transferTx ledger0 "C1" "C2" 50 "").zakat_amount = 5
    ∧ (ZakatBlockchain.create_zakat_transaction ledger0 "C1" "C2" "").2.pending_transactions
        = [ZakatBlockchain.zakatTx ledger0 "C1" "C2" ""] := by
  have h := C2_levy_rule ledger0 "C1" "C2" 50 "" ""
  have h0 : ZakatBlockchain.get_balance ledger0 "C1" = 200 := rfl
  constructor
  · rw [h.1, h0]
    unfold zakat_rate
    norm_num
  · have hz : (0:ℚ) < ZakatBlockchain.calculate_zakat
        (ZakatBlockchain.get_balance ledger0 "C1") := by
      rw [h0]
      unfold ZakatBlockchain.calculate_zakat zakat_rate
      norm_num
    have hval : ZakatBlockchain.validate_transaction ledger0
        (ZakatBlockchain.zakatTx ledger0 "C1" "C2" "") = true := by
      show (if ZakatBlockchain.get_balance ledger0 "C1" < 0 + ZakatBlockchain.calculate_zakat
          (ZakatBlockchain.get_balance ledger0 "C1") then false else true) = true
      rw [h0]
      rw [if_neg (by unfold ZakatBlockchain.calculate_zakat zakat_rate; norm_num)]
    have hs : (ZakatBlockchain.create_zakat_transaction ledger0 "C1" "C2" "").1 = true := by
      unfold ZakatBlockchain.create_zakat_transaction
      rw [if_pos hz]
      unfold ZakatBlockchain.add_transaction
      rw [hval]
      simp
    have h2 := h.2 hs
    rw [h2.1]
    have hp : ledger0.pending_transactions = [] := rfl
    rw [hp]
    simp

/-- C7: a successful seal appends exactly one block whose index is the prior
chain length, whose previous hash is the prior last block's stored hash,
whose entry list is the prior pending entries followed by the System reward
entry for the sealer, and whose seed key is the ledger creator's identifier
regardless of who seals; afterwards the pending set is empty. -/
theorem C7_seal_shape (H : HashInput → String) (st : Ledger) (m ts : String)
    (fuel : ℕ) (st' : Ledger)
    (h : ZakatBlockchain.mine_pending_transactions H st m ts fuel = some st') :
    ∃ b : Block,
      st'.chain = st.chain ++ [b]
      ∧ b.index = st.chain.length
      ∧ b.previous_hash = (ZakatBlockchain.get_latest_block st).hash
      ∧ b.transactions = st.pending_transactions ++ [ZakatBlockchain.rewardTx m ts]
      ∧ b.roll_number = st.creator_roll_number
      ∧ ZakatBlockchain.rewardTx m ts
          = { sender := "System", receiver := m, amount := mining_reward,
              zakat_amount := 0, transaction_type := "mining_reward", timestamp := ts }
      ∧ st'.pending_transactions = [] := by
  unfold ZakatBlockchain.mine_pending_transactions at h
  split at h
  · simp at h
  · rename_i b hb
    have hst' := (Option.some.inj h).symm
    subst hst'
    have hf := Block.mineAux_fields H 2 fuel _ b hb
    exact ⟨b, rfl, hf.1, hf.2.2.1, hf.2.1, hf.2.2.2.1, rfl, rfl⟩

/-- C7 witness: sealing the fresh ledger with sealer "X" succeeds and leaves
the pending set empty. -/
theorem C7_witness :
    ((ZakatBlockchain.mine_pending_transactions cH ledger0 "X" "" 0).getD
      dummyLedger).pending_transactions = [] := by
  obtain ⟨b, hc, hi, hp, ht, hr, hd, hpe⟩ :=
    C7_seal_shape cH ledger0 "X" "" 0
      ((ZakatBlockchain.mine_pending_transactions cH ledger0 "X" "" 0).getD dummyLedger)
      rfl
  exact hpe

/-- C10: the core never requires a transfer amount to be non-negative: a
sender with balance 0 can transfer the amount -100 (levy 0); the call
returns true and enqueues the entry, and applying it at seal time raises
the sender's balance from 0 to 100 and lowers the receiver's from 0 to
-100. -/
theorem C10_negative_amount :
    ZakatBlockchain.get_balance ledger0 "S" = 0
    ∧ (ZakatBlockchain.create_transfer_transaction ledger0 "S" "B" (-100) "").1 = true
    ∧ (ZakatBlockchain.create_transfer_transaction ledger0 "S" "B" (-100) "").2.pending_transactions
        = [ZakatBlockchain.transferTx ledger0 "S" "B" (-100) ""]
    ∧ ((ZakatBlockchain.mine_pending_transactions cH
          (ZakatBlockchain.create_transfer_transaction ledger0 "S" "B" (-100) "").2
          "C1" "" 0).map
        (fun st => (ZakatBlockchain.get_balance st "S", ZakatBlockchain.get_balance st "B")))
        = some (100, -100) := by
  have hS : ZakatBlockchain.get_balance ledger0 "S" = 0 := rfl
  have hval : ZakatBlockchain.validate_transaction ledger0
      (ZakatBlockchain.transferTx ledger0 "S" "B" (-100) "") = true := by
    show (if ZakatBlockchain.get_balance ledger0 "S" < (-100) + ZakatBlockchain.calculate_zakat
        (ZakatBlockchain.get_balance ledger0 "S") then false else true) = true
    rw [hS]
    rw [if_neg (by unfold ZakatBlockchain.calculate_zakat zakat_rate; norm_num)]
  have hcr : ZakatBlockchain.create_transfer_transaction ledger0 "S" "B" (-100) ""
      = (true, ⟨ledger0.creator_roll_number, ledger0.chain,
          [ZakatBlockchain.transferTx ledger0 "S" "B" (-100) ""],
          ledger0.balances, ledger0.nodes⟩) := by
    unfold ZakatBlockchain.create_transfer_transaction ZakatBlockchain.add_transaction
    rw [hval]
    have hp : ledger0.pending_transactions = [] := rfl
    simp [hp]
  refine ⟨hS, by rw [hcr], by rw [hcr], ?_⟩
  rw [hcr]
  have hm : ZakatBlockchain.mine_pending_transactions cH
      (⟨ledger0.creator_roll_number, ledger0.chain,
        [ZakatBlockchain.transferTx ledger0 "S" "B" (-100) ""],
        ledger0.balances, ledger0.nodes⟩ : Ledger) "C1" "" 0
      = some ((ZakatBlockchain.mine_pending_transactions cH
          (⟨ledger0.creator_roll_number, ledger0.chain,
            [ZakatBlockchain.transferTx ledger0 "S" "B" (-100) ""],
            ledger0.balances, ledger0.nodes⟩ : Ledger) "C1" "" 0).getD
          dummyLedger) := rfl
  rw [hm]
  simp only [Option.map_some', ZakatBlockchain.get_balance]
  have hb : ((ZakatBlockchain.mine_pending_transactions cH
      (⟨ledger0.creator_roll_number, ledger0.chain,
        [ZakatBlockchain.transferTx ledger0 "S" "B" (-100) ""],
        ledger0.balances, ledger0.nodes⟩ : Ledger) "C1" "" 0).getD
      dummyLedger).balances
      = List.foldl applyTransaction ledger0.balances
          [ZakatBlockchain.transferTx ledger0 "S" "B" (-100) "",
           ZakatBlockchain.rewardTx "C1" ""] := rfl
  rw [hb]
  have hbal0 : ledger0.balances = [("C1", (200:ℚ))] := rfl
  have htx : ZakatBlockchain.transferTx ledger0 "S" "B" (-100) ""
      = ⟨"S", "B", -100, 0 * zakat_rate, "transfer", ""⟩ := rfl
  rw [hbal0, htx]
  norm_num [applyTransaction, ZakatBlockchain.rewardTx, getBal, hasBal, setBal,
    zakat_rate, mining_reward]
  simp

/-- C4: end-to-end scenario: from a fresh ledger with creator "C1" and
balance 200, a transfer of 50 to "C2" succeeds, and after a completed seal
by "C1": balance("C2") = 50, balance("C1") = 200 - 50 - 5 + reward, the
chain has length 2, and validate_chain returns true. -/
theorem C4_scenario (H : HashInput → String) (ts1 ts2 ts3 : String) (fuel : ℕ)
    (st2 : Ledger)
    (h : ZakatBlockchain.mine_pending_transactions H
        (ZakatBlockchain.create_transfer_transaction
          (ZakatBlockchain.init H "C1" 200 ts1) "C1" "C2" 50 ts2).2 "C1" ts3 fuel
      = some st2) :
    (ZakatBlockchain.create_transfer_transaction
        (ZakatBlockchain.init H "C1" 200 ts1) "C1" "C2" 50 ts2).1 = true
    ∧ ZakatBlockchain.get_balance st2 "C2" = 50
    ∧ ZakatBlockchain.get_balance st2 "C1" = 200 - 50 - 5 + mining_reward
    ∧ st2.chain.length = 2
    ∧ ZakatBlockchain.validate_chain H st2 = true := by
  have hbal : ZakatBlockchain.get_balance (ZakatBlockchain.init H "C1" 200 ts1) "C1"
      = 200 := rfl
  have hval : ZakatBlockchain.validate_transaction (ZakatBlockchain.init H "C1" 200 ts1)
      (ZakatBlockchain.transferTx (ZakatBlockchain.init H "C1" 200 ts1) "C1" "C2" 50 ts2)
      = true := by
    show (if ZakatBlockchain.get_balance (ZakatBlockchain.init H "C1" 200 ts1) "C1" <
        50 + ZakatBlockchain.calculate_zakat
          (ZakatBlockchain.get_balance (ZakatBlockchain.init H "C1" 200 ts1) "C1")
      then false else true) = true
    rw [hbal]
    rw [if_neg (by unfold ZakatBlockchain.calculate_zakat zakat_rate; norm_num)]
  have hcr : ZakatBlockchain.create_transfer_transaction
      (ZakatBlockchain.init H "C1" 200 ts1) "C1" "C2" 50 ts2
      = (true, ⟨(ZakatBlockchain.init H "C1" 200 ts1).creator_roll_number,
          (ZakatBlockchain.init H "C1" 200 ts1).chain,
          [ZakatBlockchain.transferTx (ZakatBlockchain.init H "C1" 200 ts1) "C1" "C2" 50 ts2],
          (ZakatBlockchain.init H "C1" 200 ts1).balances,
          (ZakatBlockchain.init H "C1" 200 ts1).nodes⟩) := by
    unfold ZakatBlockchain.create_transfer_transaction ZakatBlockchain.add_transaction
    rw [hval]
    have hp : (ZakatBlockchain.init H "C1" 200 ts1).pending_transactions = [] := rfl
    simp [hp]
  refine ⟨by rw [hcr], ?_⟩
  rw [hcr] at h
  unfold ZakatBlockchain.mine_pending_transactions at h
  split at h
  · simp at h
  · rename_i b hb
    have hst2 := (Option.some.inj h).symm
    subst hst2
    have hf := Block.mineAux_fields H 2 fuel _ b hb
    have htxs : b.transactions
        = [ZakatBlockchain.transferTx (ZakatBlockchain.init H "C1" 200 ts1) "C1" "C2" 50 ts2,
           ZakatBlockchain.rewardTx "C1" ts3] := hf.2.1
    have hbals : (ZakatBlockchain.init H "C1" 200 ts1).balances = [("C1", (200:ℚ))] := rfl
    have htx2 : ZakatBlockchain.transferTx (ZakatBlockchain.init H "C1" 200 ts1) "C1" "C2" 50 ts2
        = ⟨"C1", "C2", 50, 200 * zakat_rate, "transfer", ts2⟩ := by
      show (⟨"C1", "C2", 50, ZakatBlockchain.calculate_zakat
          (ZakatBlockchain.get_balance (ZakatBlockchain.init H "C1" 200 ts1) "C1"),
          "transfer", ts2⟩ : Transaction) = _
      rw [hbal]
      rfl
    have hfold : List.foldl applyTransaction [("C1", (200:ℚ))]
        [(⟨"C1", "C2", 50, 200 * zakat_rate, "transfer", ts2⟩ : Transaction),
         ZakatBlockchain.rewardTx "C1" ts3]
        = [("C1", 155), ("C2", 50)] := by
      norm_num [applyTransaction, ZakatBlockchain.rewardTx, getBal, hasBal, setBal,
        zakat_rate]
      exact ⟨by norm_num [mining_reward], by decide⟩
    refine ⟨?_, ?_, ?_, ?_⟩
    · show getBal (List.foldl applyTransaction
        (ZakatBlockchain.init H "C1" 200 ts1).balances b.transactions) "C2" = 50
      rw [htxs, hbals, htx2, hfold]
      simp [getBal]
    · show getBal (List.foldl applyTransaction
        (ZakatBlockchain.init H "C1" 200 ts1).balances b.transactions) "C1" = 200 - 50 - 5 + mining_reward
      rw [htxs, hbals, htx2, hfold]
      simp [getBal]
      norm_num [mining_reward]
    · show ((ZakatBlockchain.init H "C1" 200 ts1).chain ++ [b]).length = 2
      rw [show (ZakatBlockchain.init H "C1" 200 ts1).chain
        = [Block.init H 0 [ZakatBlockchain.genesisTx "C1" ts1] "0" "C1" ts1] from rfl]
      rfl
    · show validChainAux H (Block.init H 0 [ZakatBlockchain.genesisTx "C1" ts1] "0" "C1" ts1) [b] = true
      have hhb : b.hash = b.calculate_hash H :=
        Block.mineAux_hash H 2 fuel _ b rfl hb
      have hpv : b.previous_hash
          = (Block.init H 0 [ZakatBlockchain.genesisTx "C1" ts1] "0" "C1" ts1).hash :=
        hf.2.2.1
      simp only [validChainAux]
      rw [if_pos hhb, if_pos hpv]

/-- C4 witness: the scenario evaluated at the concrete hash oracle `cH` with
fuel 0 (mining succeeds immediately). -/
theorem C4_witness :
    (ZakatBlockchain.create_transfer_transaction
        (ZakatBlockchain.init cH "C1" 200 "") "C1" "C2" 50 "").1 = true
    ∧ ZakatBlockchain.get_balance
        ((ZakatBlockchain.mine_pending_transactions cH
          (ZakatBlockchain.create_transfer_transaction
            (ZakatBlockchain.init cH "C1" 200 "") "C1" "C2" 50 "").2 "C1" "" 0).getD
          dummyLedger) "C2" = 50
    ∧ ZakatBlockchain.get_balance
        ((ZakatBlockchain.mine_pending_transactions cH
          (ZakatBlockchain.create_transfer_transaction
            (ZakatBlockchain.init cH "C1" 200 "") "C1" "C2" 50 "").2 "C1" "" 0).getD
          dummyLedger) "C1" = 200 - 50 - 5 + mining_reward
    ∧ ((ZakatBlockchain.mine_pending_transactions cH
          (ZakatBlockchain.create_transfer_transaction
            (ZakatBlockchain.init cH "C1" 200 "") "C1" "C2" 50 "").2 "C1" "" 0).getD
          dummyLedger).chain.length = 2
    ∧ ZakatBlockchain.validate_chain cH
        ((ZakatBlockchain.mine_pending_transactions cH
          (ZakatBlockchain.create_transfer_transaction
            (ZakatBlockchain.init cH "C1" 200 "") "C1" "C2" 50 "").2 "C1" "" 0).getD
          dummyLedger) = true :=
  C4_scenario cH "" "" "" 0
    ((ZakatBlockchain.mine_pending_transactions cH
      (ZakatBlockchain.create_transfer_transaction
        (ZakatBlockchain.init cH "C1" 200 "") "C1" "C2" 50 "").2 "C1" "" 0).getD
      dummyLedger)
    rfl

theorem runOps_sum_invariant (H : HashInput → String) (ops : List Op) :
    ∀ st st' : Ledger, st.pending_transactions = [] →
      runOps H st ops = some st' → regSealOnly ops = true →
      freshRegs H st ops = true →
      sumBal st'.balances = sumBal st.balances + regTotal ops
        + mining_reward * (sealCount ops : ℚ) := by
  induction ops with
  | nil =>
    intro st st' hp h _ _
    simp only [runOps] at h
    injection h with h
    subst h
    simp [regTotal, sealCount]
  | cons op ops ih =>
    intro st st' hp h hro hfresh
    obtain ⟨r, bal⟩ | ⟨f, t, a, ts⟩ | ⟨f, t, ts⟩ | ⟨m, ts, fuel⟩ := op
    · have hro' : regSealOnly ops = true := hro
      simp only [freshRegs, Bool.and_eq_true] at hfresh
      obtain ⟨⟨hnc, hnb⟩, hfr⟩ := hfresh
      have hcont : st.nodes.contains r = false := by simpa using hnc
      have hhas : hasBal st.balances r = false := by simpa using hnb
      have hadd : (ZakatBlockchain.add_node st r bal).2
          = ⟨st.creator_roll_number, st.chain, st.pending_transactions,
             setBal st.balances r bal, st.nodes ++ [r]⟩ := by
        unfold ZakatBlockchain.add_node
        rw [if_neg (by simpa using hcont)]
        simp [hhas]
      have h' : runOps H (ZakatBlockchain.add_node st r bal).2 ops = some st' := h
      rw [hadd] at h' hfr
      have hih := ih (⟨st.creator_roll_number, st.chain, st.pending_transactions,
          setBal st.balances r bal, st.nodes ++ [r]⟩ : Ledger) st' hp h' hro' hfr
      have hsum : sumBal ((⟨st.creator_roll_number, st.chain, st.pending_transactions,
          setBal st.balances r bal, st.nodes ++ [r]⟩ : Ledger)).balances
          = sumBal st.balances + bal := by
        show sumBal (setBal st.balances r bal) = _
        rw [sumBal_setBal, getBal_of_not_has st.balances r hhas]
        ring
      rw [hsum] at hih
      rw [hih]
      simp only [regTotal, sealCount]
      ring
    · exact absurd hro (by simp [regSealOnly])
    · exact absurd hro (by simp [regSealOnly])
    · have hro' : regSealOnly ops = true := hro
      cases hm : ZakatBlockchain.mine_pending_transactions H st m ts fuel with
      | none =>
        simp [runOps, runOp, hm] at h
      | some st1 =>
        have h' : runOps H st1 ops = some st' := by
          simp only [runOps, runOp, hm] at h
          exact h
        have hfr : freshRegs H st1 ops = true := by
          simp only [freshRegs, hm] at hfresh
          exact hfresh
        unfold ZakatBlockchain.mine_pending_transactions at hm
        split at hm
        · simp at hm
        · rename_i b hb
          have hst1 := Option.some.inj hm
          have hpend1 : st1.pending_transactions = [] := by
            rw [← hst1]
          have htb : b.transactions = st.pending_transactions
              ++ [ZakatBlockchain.rewardTx m ts] :=
            (Block.mineAux_fields H 2 fuel _ b hb).2.1
          rw [hp] at htb
          have hsum : sumBal st1.balances = sumBal st.balances + mining_reward := by
            rw [← hst1]
            show sumBal (List.foldl applyTransaction st.balances b.transactions) = _
            rw [htb]
            simp only [List.nil_append, List.foldl]
            rw [sumBal_applyTransaction]
            simp [ZakatBlockchain.rewardTx]
          have hih := ih st1 st' hpend1 h' hro' hfr
          rw [hsum] at hih
          rw [hih]
          simp only [regTotal, sealCount]
          push_cast
          ring

/-- C1 amended: for any sequence of registrations and seals from a freshly
constructed ledger in which every registration is of a brand-new account
(not yet registered and not yet present in the balance mapping), the sum of
all balances equals the creator's starting balance plus the starting
balances passed to those registrations plus the mining reward (10.0) times
the number of sealed blocks excluding genesis.  (As stated, with the
registered accounts' starting balances counted unconditionally, the claim
is false: see the counterexample.) -/
theorem C1_conservation_amended (H : HashInput → String) (creator : String)
    (initial_balance : ℚ) (ts : String) (ops : List Op) (st : Ledger)
    (h : runOps H (ZakatBlockchain.init H creator initial_balance ts) ops = some st)
    (hro : regSealOnly ops = true)
    (hfresh : freshRegs H (ZakatBlockchain.init H creator initial_balance ts) ops = true) :
    sumBal st.balances = initial_balance + regTotal ops
      + mining_reward * (sealCount ops : ℚ) := by
  have hpend0 : (ZakatBlockchain.init H creator initial_balance ts).pending_transactions
      = [] := by
    unfold ZakatBlockchain.init ZakatBlockchain.create_genesis_block ZakatBlockchain.add_node
    simp [apply_ite Ledger.pending_transactions]
  have hinv := runOps_sum_invariant H ops
    (ZakatBlockchain.init H creator initial_balance ts) st hpend0 h hro hfresh
  have hbal0 : (ZakatBlockchain.init H creator initial_balance ts).balances
      = [(creator, initial_balance)] := by
    unfold ZakatBlockchain.init ZakatBlockchain.create_genesis_block ZakatBlockchain.add_node
    simp [hasBal, apply_ite Ledger.balances]
  rw [hinv, hbal0]
  simp [sumBal]

/-- C1 witness: one fresh registration followed by one seal from a fresh
ledger: 200 (creator) + 300 (registered "Y") + 10 (one seal) = 510. -/
theorem C1_witness :
    ((runOps cH (ZakatBlockchain.init cH "C1" 200 "")
        [Op.addNode "Y" 300, Op.seal "C1" "" 0]).map (fun st => sumBal st.balances))
      = some 510 := by
  have hrun : runOps cH (ZakatBlockchain.init cH "C1" 200 "")
      [Op.addNode "Y" 300, Op.seal "C1" "" 0]
      = some ((runOps cH (ZakatBlockchain.init cH "C1" 200 "")
          [Op.addNode "Y" 300, Op.seal "C1" "" 0]).getD dummyLedger) := rfl
  have hsum := C1_conservation_amended cH "C1" 200 ""
    [Op.addNode "Y" 300, Op.seal "C1" "" 0]
    ((runOps cH (ZakatBlockchain.init cH "C1" 200 "")
      [Op.addNode "Y" 300, Op.seal "C1" "" 0]).getD dummyLedger)
    hrun (by decide) (by decide)
  rw [hrun, Option.map_some', hsum]
  norm_num [regTotal, sealCount, mining_reward]

/-- C1 counterexample: seal with sealer "X" (crediting the unregistered
account "X" with the reward 10), then register "X" with starting balance
200: registration finds "X" already in the balance mapping and does not
credit the 200, so the sum of balances is 210 while the claim as stated
predicts 200 + 200 + 10.0 × 1 = 410. -/
theorem C1_counterexample :
    ((runOps cH ledger0 [Op.seal "X" "" 0, Op.addNode "X" 200]).map
        (fun st => sumBal st.balances)) = some 210
    ∧ (210 : ℚ) ≠ 200 + 200 + mining_reward * 1 := by
  constructor
  · have hrun : runOps cH ledger0 [Op.seal "X" "" 0, Op.addNode "X" 200]
        = some ((runOps cH ledger0 [Op.seal "X" "" 0, Op.addNode "X" 200]).getD
            dummyLedger) := rfl
    rw [hrun, Option.map_some']
    have hfinb : ((runOps cH ledger0 [Op.seal "X" "" 0, Op.addNode "X" 200]).getD
        dummyLedger).balances
        = List.foldl applyTransaction ledger0.balances
            (ledger0.pending_transactions ++ [ZakatBlockchain.rewardTx "X" ""]) := rfl
    rw [hfinb, show ledger0.pending_transactions = [] from rfl,
      show ledger0.balances = [("C1", (200:ℚ))] from rfl]
    simp [applyTransaction, ZakatBlockchain.rewardTx, getBal, hasBal, setBal, sumBal]
    norm_num [mining_reward]
  · norm_num [mining_reward]

theorem runOps_sealedOk (H : HashInput → String) (ops : List Op) :
    ∀ st st' : Ledger, runOps H st ops = some st' →
      (∀ b ∈ st.chain, 1 ≤ b.index → b.hash.take 2 = mineTarget 2) →
      (∀ b ∈ st'.chain, 1 ≤ b.index → b.hash.take 2 = mineTarget 2) := by
  induction ops with
  | nil =>
    intro st st' h hok
    simp only [runOps] at h
    injection h with h
    subst h
    exact hok
  | cons op ops ih =>
    intro st st' h hok
    obtain ⟨r, bal⟩ | ⟨f, t, a, ts⟩ | ⟨f, t, ts⟩ | ⟨m, ts, fuel⟩ := op
    · have hch : (ZakatBlockchain.add_node st r bal).2.chain = st.chain := by
        unfold ZakatBlockchain.add_node
        split
        · rfl
        · show (if hasBal st.balances r then _ else _ : Ledger).chain = st.chain
          split
          · rfl
          · rfl
      have h' : runOps H (ZakatBlockchain.add_node st r bal).2 ops = some st' := h
      refine ih _ _ h' ?_
      rw [hch]
      exact hok
    · have hch : (ZakatBlockchain.create_transfer_transaction st f t a ts).2.chain
          = st.chain := by
        unfold ZakatBlockchain.create_transfer_transaction ZakatBlockchain.add_transaction
        split
        · rfl
        · rfl
      have h' : runOps H (ZakatBlockchain.create_transfer_transaction st f t a ts).2 ops
          = some st' := h
      refine ih _ _ h' ?_
      rw [hch]
      exact hok
    · have hch : (ZakatBlockchain.create_zakat_transaction st f t ts).2.chain
          = st.chain := by
        unfold ZakatBlockchain.create_zakat_transaction ZakatBlockchain.add_transaction
        split
        · split
          · rfl
          · rfl
        · rfl
      have h' : runOps H (ZakatBlockchain.create_zakat_transaction st f t ts).2 ops
          = some st' := h
      refine ih _ _ h' ?_
      rw [hch]
      exact hok
    · cases hm : ZakatBlockchain.mine_pending_transactions H st m ts fuel with
      | none => simp [runOps, runOp, hm] at h
      | some st1 =>
        have h' : runOps H st1 ops = some st' := by
          simp only [runOps, runOp, hm] at h
          exact h
        refine ih _ _ h' ?_
        unfold ZakatBlockchain.mine_pending_transactions at hm
        split at hm
        · simp at hm
        · rename_i b hb
          have hst1 := Option.some.inj hm
          intro x hx hxi
          rw [← hst1] at hx
          replace hx : x ∈ st.chain ++ [b] := hx
          rcases List.mem_append.mp hx with hxL | hxR
          · exact hok x hxL hxi
          · have hxb : x = b := by simpa using hxR
            subst hxb
            exact Block.mineAux_take H 2 fuel _ x hb

/-- C8: in every ledger state reachable from construction by the public
operations (registration, transfer, zakat, seal), every block at index ≥ 1
has a stored hash whose first two (= difficulty) hex characters are '0'. -/
theorem C8_difficulty (H : HashInput → String) (creator : String)
    (initial_balance : ℚ) (ts : String) (ops : List Op) (st : Ledger)
    (h : runOps H (ZakatBlockchain.init H creator initial_balance ts) ops = some st) :
    ∀ b ∈ st.chain, 1 ≤ b.index → b.hash.take 2 = "00" := by
  have h00 : mineTarget 2 = "00" := rfl
  intro b hb hi
  rw [← h00]
  refine runOps_sealedOk H ops _ st h ?_ b hb hi
  intro x hx hxi
  have hch : (ZakatBlockchain.init H creator initial_balance ts).chain
      = [Block.init H 0 [ZakatBlockchain.genesisTx creator ts] "0" creator ts] := by
    unfold ZakatBlockchain.init ZakatBlockchain.create_genesis_block ZakatBlockchain.add_node
    simp [apply_ite Ledger.chain, apply_ite Ledger.creator_roll_number]
  rw [hch] at hx
  simp only [List.mem_singleton] at hx
  subst hx
  exact absurd hxi (by simp [Block.init])

/-- C8 witness: after one concrete seal under the oracle `cH`, the sealed
block at index 1 has the two-zero hash prefix. -/
theorem C8_witness :
    (((runOps cH (ZakatBlockchain.init cH "C1" 200 "") [Op.seal "X" "" 0]).getD
        dummyLedger).chain.getLastD dummyBlock).hash.take 2 = "00" := by
  have h := C8_difficulty cH "C1" 200 "" [Op.seal "X" "" 0]
    ((runOps cH (ZakatBlockchain.init cH "C1" 200 "") [Op.seal "X" "" 0]).getD
      dummyLedger) rfl
  exact h _ (by decide) (by decide)
